import Mathlib

/-!
Verification of the pagination core of `juniper-relay-helpers`.

The development shallowly embeds the Rust sources
(`src/juniper_relay_helpers/src/cursors.rs`, `pagination.rs`,
`cursor_provider.rs`, and the connection assembly generated by
`src/juniper_relay_helpers_codegen/src/lib.rs`) into Lean:

* Rust `&str` / `String` values are modelled as `List Char`;
* byte vectors (`Vec<u8>`) are modelled as `List Nat` with every entry `< 256`;
* Rust `i32` values are modelled as `Int`, with every addition the source
  performs on them modelled as *checked* arithmetic (`checkedAddI32`):
  out-of-range results are overflow panics, as under Rust's default
  debug/test profile; the numeric parser keeps the exact `i32` range
  checks of `str::parse::<i32>`, and the `usize`-to-`i32` `as` cast is
  modelled as the wrapping truncation it is (`wrapI32`);
* the `usize` subtraction `items.len() - 1` in
  `OffsetCursorProvider::get_page_info` is likewise checked: on an empty
  slice it underflows, a panic under the same profile.  Functions that
  contain a reachable panic site return a result type with an explicit
  `panicked` constructor (`RustOutcome` when the source signature also has
  a typed error, `RustValue` when it does not); functions whose every path
  returns normally in the source are given the corresponding total type.

The base64 (URL-safe, padded, canonical) codec and the UTF-8 codec that the
cursor wire format relies on are modelled down to the byte level, mirroring
`BASE64_URL_SAFE.decode/encode` and `String::from_utf8`.
-/

namespace Relay

/-- Modelled from the spec: the `CursorError` enum lives in
`cursor_errors.rs`, a repository file that is not part of the provided
sources.  Section 7 of the design document lists exactly these error kinds:
`InvalidCursor` (wrong number of delimited segments or kind tag mismatch),
`Base64DecodeError` (malformed base64 payload) and `Utf8DecodeError`
(decoded bytes are not valid UTF-8). -/
inductive CursorError : Type where
  | invalidCursor : CursorError
  | base64DecodeError : CursorError
  | utf8DecodeError : CursorError
deriving DecidableEq, Repr

/-- Outcome of running a Rust function that may return normally (`ok`),
return a typed error (`err`), or panic (`panicked`).  Panics carry no
payload; we only track that the function did not return. -/
inductive RustOutcome (α : Type) : Type where
  | ok (a : α) : RustOutcome α
  | err (e : CursorError) : RustOutcome α
  | panicked : RustOutcome α
deriving DecidableEq, Repr

/-- Decidable equality for `Except`, used to evaluate decode results on
concrete inputs. -/
instance {ε α : Type} [DecidableEq ε] [DecidableEq α] : DecidableEq (Except ε α)
  | .ok a, .ok b =>
    if h : a = b then .isTrue (by rw [h]) else .isFalse (by simp [h])
  | .ok _, .error _ => .isFalse (by simp)
  | .error _, .ok _ => .isFalse (by simp)
  | .error a, .error b =>
    if h : a = b then .isTrue (by rw [h]) else .isFalse (by simp [h])

/-! ## Decimal formatting and parsing (`format!("{}", i32)` / `str::parse::<i32>`) -/

/-- The character for a single decimal digit, as produced by Rust's decimal
formatting of integers. -/
def digitChar (d : Nat) : Char := Char.ofNat (48 + d)

/-- Big-endian decimal digits of a positive number.  The first argument is
fuel (structural recursion); `natToChars` supplies `n` itself, which always
suffices since a number has at most `n` digits. -/
def natToCharsAux : Nat → Nat → List Char
  | 0, _ => []
  | _ + 1, 0 => []
  | fuel + 1, n + 1 => natToCharsAux fuel ((n + 1) / 10) ++ [digitChar ((n + 1) % 10)]

/-- Decimal representation of a `Nat`, e.g. `natToChars 120 = ['1','2','0']`.
Mirrors Rust's `Display` for unsigned values. -/
def natToChars (n : Nat) : List Char :=
  if n = 0 then ['0'] else natToCharsAux n n

/-- Decimal representation of an `Int`, mirroring Rust's `Display` for `i32`
(a leading `'-'` for negative values, no `'+'`). -/
def intToChars (n : Int) : List Char :=
  if n < 0 then '-' :: natToChars n.natAbs else natToChars n.toNat

/-- Inverse of `digitChar`: `some d` for `'0'..'9'`, otherwise `none`. -/
def charToDigit (c : Char) : Option Nat :=
  if 48 ≤ c.toNat ∧ c.toNat ≤ 57 then some (c.toNat - 48) else none

/-- Left-to-right accumulation of decimal digits; `none` on the first
non-digit character. -/
def parseDigitsAux : List Char → Nat → Option Nat
  | [], acc => some acc
  | c :: rest, acc =>
    match charToDigit c with
    | some d => parseDigitsAux rest (acc * 10 + d)
    | none => none

/-- Parse a non-empty all-digit string into a `Nat`; `none` on the empty
string or on any non-digit character. -/
def parseNatDigits : List Char → Option Nat
  | [] => none
  | c :: rest => parseDigitsAux (c :: rest) 0

/-- Model of Rust's `str::parse::<i32>`: an optional single `'+'`/`'-'` sign
followed by at least one decimal digit, rejecting values outside
`[-2^31, 2^31)` (Rust returns `Err` on overflow). -/
def parseI32 (s : List Char) : Option Int :=
  match s with
  | [] => none
  | c :: rest =>
    if c = '-' then
      (parseNatDigits rest).bind fun n =>
        if n ≤ 2147483648 then some (-(n : Int)) else none
    else if c = '+' then
      (parseNatDigits rest).bind fun n =>
        if n < 2147483648 then some ((n : Int)) else none
    else
      (parseNatDigits (c :: rest)).bind fun n =>
        if n < 2147483648 then some ((n : Int)) else none

/-! ## The `"||"` segment delimiter (`CURSOR_SEGMENT_DELIMITER`) -/

/-- Whether the string contains the two-character delimiter `"||"`. -/
def hasDelim : List Char → Bool
  | [] => false
  | [_] => false
  | c1 :: c2 :: rest =>
    if c1 = '|' ∧ c2 = '|' then true else hasDelim (c2 :: rest)

/-- Model of Rust's `str::split(CURSOR_SEGMENT_DELIMITER)`: split on
leftmost non-overlapping occurrences of `"||"`.  Always returns at least
one (possibly empty) segment, like the Rust iterator. -/
def splitDelim : List Char → List (List Char)
  | [] => [[]]
  | [c] => [[c]]
  | c1 :: c2 :: rest =>
    if c1 = '|' ∧ c2 = '|' then [] :: splitDelim rest
    else
      match splitDelim (c2 :: rest) with
      | [] => [[c1]]
      | p :: ps => (c1 :: p) :: ps

/-! ## UTF-8 codec (`String::from_utf8` / `str::as_bytes`) -/

/-- UTF-8 encoding of a single scalar value (1 to 4 bytes). -/
def utf8EncodeChar (c : Char) : List Nat :=
  if c.toNat < 0x80 then [c.toNat]
  else if c.toNat < 0x800 then [0xC0 + c.toNat / 0x40, 0x80 + c.toNat % 0x40]
  else if c.toNat < 0x10000 then
    [0xE0 + c.toNat / 0x1000, 0x80 + (c.toNat / 0x40) % 0x40, 0x80 + c.toNat % 0x40]
  else
    [0xF0 + c.toNat / 0x40000, 0x80 + (c.toNat / 0x1000) % 0x40,
      0x80 + (c.toNat / 0x40) % 0x40, 0x80 + c.toNat % 0x40]

/-- UTF-8 encoding of a string into bytes, as in `str::as_bytes`. -/
def utf8Encode (s : List Char) : List Nat := s.flatMap utf8EncodeChar

/-- One step of strict UTF-8 decoding, as performed by `String::from_utf8`:
decode the leading scalar value and return it with the remaining bytes,
rejecting invalid leading bytes, truncated sequences, stray continuation
bytes, overlong encodings, surrogates and out-of-range values. -/
def utf8Step : List Nat → Option (Char × List Nat)
  | [] => none
  | b0 :: rest =>
    if b0 < 0x80 then some (Char.ofNat b0, rest)
    else if b0 < 0xC2 then none
    else if b0 ≤ 0xDF then
      match rest with
      | b1 :: rest1 =>
        if 0x80 ≤ b1 ∧ b1 ≤ 0xBF then
          some (Char.ofNat ((b0 - 0xC0) * 0x40 + (b1 - 0x80)), rest1)
        else none
      | [] => none
    else if b0 ≤ 0xEF then
      match rest with
      | b1 :: b2 :: rest2 =>
        if (0x80 ≤ b1 ∧ b1 ≤ 0xBF) ∧ (0x80 ≤ b2 ∧ b2 ≤ 0xBF) then
          if 0x800 ≤ (b0 - 0xE0) * 0x1000 + (b1 - 0x80) * 0x40 + (b2 - 0x80) ∧
              ¬(0xD800 ≤ (b0 - 0xE0) * 0x1000 + (b1 - 0x80) * 0x40 + (b2 - 0x80) ∧
                (b0 - 0xE0) * 0x1000 + (b1 - 0x80) * 0x40 + (b2 - 0x80) ≤ 0xDFFF) then
            some (Char.ofNat ((b0 - 0xE0) * 0x1000 + (b1 - 0x80) * 0x40 + (b2 - 0x80)),
              rest2)
          else none
        else none
      | _ => none
    else if b0 ≤ 0xF4 then
      match rest with
      | b1 :: b2 :: b3 :: rest3 =>
        if (0x80 ≤ b1 ∧ b1 ≤ 0xBF) ∧ (0x80 ≤ b2 ∧ b2 ≤ 0xBF) ∧
            (0x80 ≤ b3 ∧ b3 ≤ 0xBF) then
          if 0x10000 ≤ (b0 - 0xF0) * 0x40000 + (b1 - 0x80) * 0x1000 +
                (b2 - 0x80) * 0x40 + (b3 - 0x80) ∧
              (b0 - 0xF0) * 0x40000 + (b1 - 0x80) * 0x1000 +
                (b2 - 0x80) * 0x40 + (b3 - 0x80) ≤ 0x10FFFF then
            some (Char.ofNat ((b0 - 0xF0) * 0x40000 + (b1 - 0x80) * 0x1000 +
              (b2 - 0x80) * 0x40 + (b3 - 0x80)), rest3)
          else none
        else none
      | _ => none
    else none

/-- Iterate `utf8Step` over the whole byte vector.  The first argument is
fuel for structural recursion; each step consumes at least one byte, so
the byte count is always enough fuel. -/
def utf8DecodeAux : Nat → List Nat → Option (List Char)
  | _, [] => some []
  | 0, _ :: _ => none
  | fuel + 1, b0 :: rest =>
    match utf8Step (b0 :: rest) with
    | some (c, remaining) => (utf8DecodeAux fuel remaining).map (fun cs => c :: cs)
    | none => none

/-- Strict UTF-8 decoding of a byte vector, as in `String::from_utf8`
(`none` models the `FromUtf8Error` case). -/
def utf8Decode (l : List Nat) : Option (List Char) := utf8DecodeAux l.length l

/-! ## Base64 codec (`BASE64_URL_SAFE`: URL-safe alphabet, canonical padding) -/

/-- Character for a 6-bit group in the URL-safe base64 alphabet
(`A-Z a-z 0-9 - _`). -/
def sextetChar (n : Nat) : Char :=
  if n < 26 then Char.ofNat (65 + n)
  else if n < 52 then Char.ofNat (97 + (n - 26))
  else if n < 62 then Char.ofNat (48 + (n - 52))
  else if n = 62 then '-'
  else '_'

/-- Inverse of `sextetChar`; `none` for characters outside the URL-safe
alphabet (including `'='`). -/
def charSextet (c : Char) : Option Nat :=
  let v := c.toNat
  if 65 ≤ v ∧ v ≤ 90 then some (v - 65)
  else if 97 ≤ v ∧ v ≤ 122 then some (26 + (v - 97))
  else if 48 ≤ v ∧ v ≤ 57 then some (52 + (v - 48))
  else if c = '-' then some 62
  else if c = '_' then some 63
  else none

/-- Base64 encoding with `'='` padding, three bytes to four characters,
as produced by `BASE64_URL_SAFE.encode`. -/
def base64Encode : List Nat → List Char
  | [] => []
  | [b0] => [sextetChar (b0 / 4), sextetChar (b0 % 4 * 16), '=', '=']
  | [b0, b1] =>
    [sextetChar (b0 / 4), sextetChar (b0 % 4 * 16 + b1 / 16),
      sextetChar (b1 % 16 * 4), '=']
  | b0 :: b1 :: b2 :: rest =>
    sextetChar (b0 / 4) :: sextetChar (b0 % 4 * 16 + b1 / 16) ::
      sextetChar (b1 % 16 * 4 + b2 / 64) :: sextetChar (b2 % 64) ::
      base64Encode rest

/-- Base64 decoding as performed by `BASE64_URL_SAFE.decode` with its
default configuration: input length must be a multiple of four, padding
must be canonical, trailing bits must be zero, and `'='` may appear only as
final padding. -/
def base64Decode : List Char → Option (List Nat)
  | [] => some []
  | c0 :: c1 :: c2 :: c3 :: rest =>
    match charSextet c0, charSextet c1 with
    | some s0, some s1 =>
      if c2 = '=' then
        if c3 = '=' ∧ rest = [] ∧ s1 % 16 = 0 then some [s0 * 4 + s1 / 16]
        else none
      else
        match charSextet c2 with
        | some s2 =>
          if c3 = '=' then
            if rest = [] ∧ s2 % 4 = 0 then
              some [s0 * 4 + s1 / 16, s1 % 16 * 16 + s2 / 4]
            else none
          else
            match charSextet c3 with
            | some s3 =>
              (base64Decode rest).map
                (fun bs => (s0 * 4 + s1 / 16) :: (s1 % 16 * 16 + s2 / 4) ::
                  (s2 % 4 * 64 + s3) :: bs)
            | none => none
        | none => none
    | _, _ => none
  | _ => none

/-- The encoding pipeline shared by every cursor kind
(`Cursor::to_encoded_string`): base64 of the UTF-8 bytes of the raw string. -/
def toEncodedStr (raw : List Char) : List Char := base64Encode (utf8Encode raw)

/-! ## Cursors (`cursors.rs`) -/

/-- `OffsetCursor { offset: i32, first: Option<i32> }`. -/
structure OffsetCursor : Type where
  offset : Int
  first : Option Int
deriving DecidableEq, Repr

/-- `OffsetCursor::default()`. -/
def OffsetCursor.defaultC : OffsetCursor := ⟨0, none⟩

/-- `impl Cursor for OffsetCursor`, `to_raw_string`:
`"offset||<offset>||<first>"` when `first` is present,
`"offset||<offset>"` otherwise. -/
def OffsetCursor.to_raw_string (c : OffsetCursor) : List Char :=
  match c.first with
  | some f =>
    "offset".toList ++ '|' :: '|' :: intToChars c.offset ++ '|' :: '|' :: intToChars f
  | none => "offset".toList ++ '|' :: '|' :: intToChars c.offset

/-- `impl Cursor for OffsetCursor`, `new`: requires exactly 2 or 3
delimiter-separated segments, else `InvalidCursor`; `offset` is
`parts[1].parse::<i32>().unwrap_or(0)`; `first` is absent for 2 segments and
`parts[2].parse::<i32>().ok()` for 3.  Every path returns, so the model is
panic-free (the only indexing happens under the length match). -/
def OffsetCursor.new (_raw : List Char) (parts : List (List Char)) :
    Except CursorError OffsetCursor :=
  match parts with
  | [_, a] => .ok ⟨(parseI32 a).getD 0, none⟩
  | [_, a, b] => .ok ⟨(parseI32 a).getD 0, parseI32 b⟩
  | _ => .error .invalidCursor

/-- `Cursor::from_encoded_string` instantiated at `OffsetCursor`:
base64-decode, validate UTF-8, split on `"||"`, then `Self::new`. -/
def OffsetCursor.from_encoded_string (input : List Char) :
    Except CursorError OffsetCursor :=
  match base64Decode input with
  | none => .error .base64DecodeError
  | some bytes =>
    match utf8Decode bytes with
    | none => .error .utf8DecodeError
    | some s => OffsetCursor.new s (splitDelim s)

/-- `Cursor::to_encoded_string` for `OffsetCursor`. -/
def OffsetCursor.to_encoded_string (c : OffsetCursor) : List Char :=
  toEncodedStr c.to_raw_string

/-- `StringCursor { value: String }`. -/
structure StringCursor : Type where
  value : List Char
deriving DecidableEq, Repr

/-- `impl Cursor for StringCursor`, `to_raw_string`: `"string||<value>"`. -/
def StringCursor.to_raw_string (c : StringCursor) : List Char :=
  "string".toList ++ '|' :: '|' :: c.value

/-- `impl Cursor for StringCursor`, `new`: evaluates `parts[1]` without any
length check; when the split produced fewer than two segments this indexing
is out of bounds and the Rust code panics. -/
def StringCursor.new (_raw : List Char) (parts : List (List Char)) :
    RustOutcome StringCursor :=
  match parts with
  | _ :: a :: _ => .ok ⟨a⟩
  | _ => .panicked

/-- `Cursor::from_encoded_string` instantiated at `StringCursor`. -/
def StringCursor.from_encoded_string (input : List Char) :
    RustOutcome StringCursor :=
  match base64Decode input with
  | none => .err .base64DecodeError
  | some bytes =>
    match utf8Decode bytes with
    | none => .err .utf8DecodeError
    | some s => StringCursor.new s (splitDelim s)

/-- `Cursor::to_encoded_string` for `StringCursor`. -/
def StringCursor.to_encoded_string (c : StringCursor) : List Char :=
  toEncodedStr c.to_raw_string

/-! ## Pagination data (`pagination.rs`, `cursor_provider.rs`) -/

/-- `PageInfo` from `pagination.rs`. -/
structure PageInfo : Type where
  has_next_page : Bool
  has_prev_page : Bool
  start_cursor : Option (List Char)
  end_cursor : Option (List Char)
deriving DecidableEq, Repr

/-- `PageRequest { first: Option<i32>, after: Option<String> }`. -/
structure PageRequest : Type where
  first : Option Int
  after : Option (List Char)
deriving DecidableEq, Repr

/-- `PageRequest::parsed_cursor::<T>()` monomorphised at `T = OffsetCursor`
(the only instantiation used by `OffsetCursorProvider`): `Ok(None)` when
`after` is absent, otherwise the decoded cursor wrapped in `Some`, with
decode failures propagated by `?`. -/
def PageRequest.parsed_cursor (pr : PageRequest) :
    Except CursorError (Option OffsetCursor) :=
  match pr.after with
  | none => .ok none
  | some s =>
    match OffsetCursor.from_encoded_string s with
    | .ok c => .ok (some c)
    | .error e => .error e

/-- `PaginationMetadata { total_count: i32, page_request: Option<PageRequest> }`. -/
structure PaginationMetadata : Type where
  total_count : Int
  page_request : Option PageRequest
deriving DecidableEq, Repr

/-! ## Machine arithmetic of the providers -/

/-- Outcome of running a Rust function whose signature has no error type:
it either returns normally or panics. -/
inductive RustValue (α : Type) : Type where
  | ok (a : α) : RustValue α
  | panicked : RustValue α
deriving DecidableEq, Repr

/-- Rust `i32` addition under the default debug/test profile: the sum when
it is representable in `i32`, `none` (an overflow panic) otherwise. -/
def checkedAddI32 (a b : Int) : Option Int :=
  if -2147483648 ≤ a + b ∧ a + b < 2147483648 then some (a + b) else none

/-- The `usize`-to-`i32` `as` cast: truncate to 32 bits and reinterpret as
signed.  Never a panic, in any profile. -/
def wrapI32 (x : Int) : Int := (x + 2147483648) % 4294967296 - 2147483648

/-! ## `OffsetCursorProvider` (`cursor_provider.rs`) -/

/-- `OffsetCursorProvider::get_cursor_for_item`: resolve the current cursor
from the page request's `after` (with `offset_adjust = 1` exactly when a
cursor was decoded, and the default cursor with adjust 0 when the request
or `after` is absent or the decode failed), then return
`OffsetCursor { offset: current.offset + offset_adjust + item_idx,
first: current.first }`.  The `_item` argument is unused, as in the
source.  The two `i32` additions are performed left to right and each is
checked: an out-of-range intermediate or final sum is an overflow panic
(debug/test profile). -/
def offset_get_cursor_for_item {α : Type} (metadata : PaginationMetadata)
    (item_idx : Int) (_item : α) : RustValue OffsetCursor :=
  let p : OffsetCursor × Int :=
    match metadata.page_request with
    | some pr =>
      match pr.parsed_cursor with
      | .ok (some cc) => (cc, 1)
      | .ok none => (OffsetCursor.defaultC, 0)
      | .error _ => (OffsetCursor.defaultC, 0)
    | none => (OffsetCursor.defaultC, 0)
  match checkedAddI32 p.1.offset p.2 with
  | none => .panicked
  | some s1 =>
    match checkedAddI32 s1 item_idx with
    | none => .panicked
    | some s2 => .ok ⟨s2, p.1.first⟩

/-- `OffsetCursorProvider::get_page_info`.  Panic sites, in source order:
the `i32` addition `current_cursor.offset + first` inside the
`has_next_page` computation (checked, overflow panics); the unconditional
`let last_index = items.len() - 1;` computed *before* the `is_empty`
checks that guard the indexing, which underflows on an empty slice; and
the `i32` additions inside the two `get_cursor_for_item` calls that build
the boundary cursors.  The `last_index as i32` cast wraps.  On inputs
hitting none of these, it builds the `PageInfo` exactly as the source
does. -/
def offset_get_page_info {α : Type} (metadata : PaginationMetadata)
    (items : List α) : RustValue PageInfo :=
  let current_cursor : OffsetCursor :=
    match metadata.page_request with
    | some pr =>
      match pr.parsed_cursor with
      | .ok c => c.getD OffsetCursor.defaultC
      | .error _ => OffsetCursor.defaultC
    | none => OffsetCursor.defaultC
  match (match metadata.page_request with
    | some pr =>
      match pr.first with
      | some first =>
        (checkedAddI32 current_cursor.offset first).map
          (fun sum => decide (sum < metadata.total_count))
      | none => some false
    | none => some false) with
  | none => .panicked
  | some has_next_page =>
    match items with
    | [] => .panicked
    | i0 :: restItems =>
      let last_index : Nat := (i0 :: restItems).length - 1
      match offset_get_cursor_for_item metadata 0 i0 with
      | .panicked => .panicked
      | .ok start_c =>
        match offset_get_cursor_for_item metadata (wrapI32 (last_index : Int))
            ((i0 :: restItems).getD last_index i0) with
        | .panicked => .panicked
        | .ok end_c =>
          .ok
            { has_prev_page := decide (0 < current_cursor.offset)
              has_next_page := has_next_page
              start_cursor := some start_c.to_encoded_string
              end_cursor := some end_c.to_encoded_string }

/-! ## `KeyedCursorProvider` (`cursor_provider.rs`) -/

/-- `KeyedCursorProvider::get_cursor_for_item`: ignores the metadata and the
index and wraps the item's `cursor_key()` in a `StringCursor`.  The
`CursorByKey` trait is modelled by passing the key function explicitly. -/
def keyed_get_cursor_for_item {α : Type} (key : α → List Char)
    (_metadata : PaginationMetadata) (_item_idx : Int) (item : α) : StringCursor :=
  ⟨key item⟩

/-- `KeyedCursorProvider::get_page_info`: boundary cursors from
`items.first()` / `items.last()` (both guarded, `None` on an empty page),
`has_prev_page` iff the page request is present with a non-absent `after`,
`has_next_page` iff the page is non-empty. -/
def keyed_get_page_info {α : Type} (key : α → List Char)
    (metadata : PaginationMetadata) (items : List α) : PageInfo :=
  let first_item_cursor : Option (List Char) :=
    match items.head? with
    | some first_item =>
      some (keyed_get_cursor_for_item key metadata 0 first_item).to_encoded_string
    | none => none
  let last_item_cursor : Option (List Char) :=
    match items.getLast? with
    | some last_item =>
      some (keyed_get_cursor_for_item key metadata ((items.length : Int) - 1)
        last_item).to_encoded_string
    | none => none
  let has_previous_page : Bool :=
    match metadata.page_request with
    | some pr => pr.after.isSome
    | none => false
  { start_cursor := first_item_cursor
    end_cursor := last_item_cursor
    has_prev_page := has_previous_page
    has_next_page := !items.isEmpty }

/-! ## Connection assembly (`juniper_relay_helpers_codegen/src/lib.rs`) -/

/-- The generated `<Name>RelayEdge` struct: a node plus an optional encoded
cursor. -/
structure RelayEdge (α : Type) : Type where
  node : α
  cursor : Option (List Char)
deriving DecidableEq, Repr

/-- The generated `<Name>RelayConnection` struct. -/
structure RelayConnection (α : Type) : Type where
  count : Int
  edges : List (RelayEdge α)
  page_info : PageInfo
deriving DecidableEq, Repr

/-- A `CursorProvider<ItemT>` implementation together with the `Cursor`
implementation of its cursor type (`to_raw_string` is what
`to_encoded_string` is derived from).  `get_page_info` may panic, hence the
`RustOutcome`. -/
structure CursorProviderM (α : Type) (κ : Type) : Type where
  to_raw_string : κ → List Char
  get_cursor_for_item : PaginationMetadata → Int → α → κ
  get_page_info : PaginationMetadata → List α → RustOutcome PageInfo

/-- The generated `RelayEdge::new`: stores the node and
`Some(cursor.to_encoded_string())`. -/
def RelayEdge.newE {α κ : Type} (to_raw : κ → List Char) (node : α) (cursor : κ) :
    RelayEdge α :=
  ⟨node, some (toEncodedStr (to_raw cursor))⟩

/-- Rust's `Iterator::enumerate` over a list, starting at index `i`. -/
def enumerateFrom {α : Type} (i : Nat) : List α → List (Nat × α)
  | [] => []
  | a :: l => (i, a) :: enumerateFrom (i + 1) l

/-- The generated `RelayConnection::new`: builds
`PaginationMetadata { total_count: total_items, page_request }`, one edge
per node via `get_cursor_for_item` on the enumerated nodes, and the
`PageInfo` via `get_page_info`; the connection's `count` is `total_items`.
A panic inside `get_page_info` propagates. -/
def RelayConnection.newC {α κ : Type} (p : CursorProviderM α κ) (nodes : List α)
    (total_items : Int) (page_request : Option PageRequest) :
    RustOutcome (RelayConnection α) :=
  let metadata : PaginationMetadata := ⟨total_items, page_request⟩
  let edges : List (RelayEdge α) :=
    (enumerateFrom 0 nodes).map fun x =>
      RelayEdge.newE p.to_raw_string x.2
        (p.get_cursor_for_item metadata (x.1 : Int) x.2)
  match p.get_page_info metadata nodes with
  | .ok pi => .ok ⟨total_items, edges, pi⟩
  | .err e => .err e
  | .panicked => .panicked

/-- The `KeyedCursorProvider` packaged as a `CursorProviderM` (its
`get_page_info` never panics). -/
def keyedProvider {α : Type} (key : α → List Char) : CursorProviderM α StringCursor :=
  ⟨StringCursor.to_raw_string, fun md i it => keyed_get_cursor_for_item key md i it,
    fun md items => .ok (keyed_get_page_info key md items)⟩

/-! ## Lemmas: decimal round trip -/

/-- Digits produced by `natToCharsAux` are decimal digit characters. -/
theorem natToCharsAux_digits (fuel n : Nat) :
    ∀ c ∈ natToCharsAux fuel n, ∃ d, d < 10 ∧ c = digitChar d := by
  induction fuel generalizing n with
  | zero => simp [natToCharsAux]
  | succ f ih =>
    cases n with
    | zero => simp [natToCharsAux]
    | succ m =>
      intro c hc
      simp only [natToCharsAux, List.mem_append, List.mem_singleton] at hc
      rcases hc with hc | hc
      · exact ih _ c hc
      · exact ⟨(m + 1) % 10, Nat.mod_lt _ (by omega), hc⟩

theorem charToDigit_digitChar {d : Nat} (h : d < 10) :
    charToDigit (digitChar d) = some d := by
  revert d h
  decide

theorem digitChar_ne_dash {d : Nat} (h : d < 10) : digitChar d ≠ '-' := by
  revert d h
  decide

theorem digitChar_ne_plus {d : Nat} (h : d < 10) : digitChar d ≠ '+' := by
  revert d h
  decide

theorem digitChar_ne_bar {d : Nat} (h : d < 10) : digitChar d ≠ '|' := by
  revert d h
  decide

/-- `parseDigitsAux` distributes over append. -/
theorem parseDigitsAux_append (xs ys : List Char) (acc : Nat) :
    parseDigitsAux (xs ++ ys) acc =
      match parseDigitsAux xs acc with
      | some m => parseDigitsAux ys m
      | none => none := by
  induction xs generalizing acc with
  | nil => simp [parseDigitsAux]
  | cons c rest ih =>
    simp only [List.cons_append, parseDigitsAux]
    cases charToDigit c with
    | some d => exact ih _
    | none => rfl

/-- Parsing the digits written by `natToCharsAux` recovers the number. -/
theorem parseDigitsAux_natToCharsAux (fuel : Nat) :
    ∀ n acc, n ≤ fuel →
      parseDigitsAux (natToCharsAux fuel n) acc =
        some (acc * 10 ^ (natToCharsAux fuel n).length + n) := by
  induction fuel with
  | zero =>
    intro n acc h
    have : n = 0 := by omega
    subst this
    simp [natToCharsAux, parseDigitsAux]
  | succ f ih =>
    intro n acc h
    cases n with
    | zero => simp [natToCharsAux, parseDigitsAux]
    | succ m =>
      have hq : (m + 1) / 10 ≤ f := by omega
      simp only [natToCharsAux, parseDigitsAux_append, ih _ acc hq]
      have hr : (m + 1) % 10 < 10 := Nat.mod_lt _ (by omega)
      simp only [parseDigitsAux, charToDigit_digitChar hr, List.length_append,
        List.length_singleton]
      congr 1
      have := Nat.div_add_mod (m + 1) 10
      ring_nf
      omega

theorem natToCharsAux_ne_nil (fuel n : Nat) (h1 : 0 < n) (h2 : n ≤ fuel) :
    natToCharsAux fuel n ≠ [] := by
  cases fuel with
  | zero => omega
  | succ f =>
    cases n with
    | zero => omega
    | succ m => simp [natToCharsAux]

/-- `parseNatDigits` inverts `natToChars`. -/
theorem parseNatDigits_natToChars (n : Nat) :
    parseNatDigits (natToChars n) = some n := by
  by_cases h : n = 0
  · subst h
    decide
  · have h1 : 0 < n := by omega
    unfold natToChars
    rw [if_neg h]
    have hne := natToCharsAux_ne_nil n n h1 (le_refl n)
    rcases hx : natToCharsAux n n with _ | ⟨c, rest⟩
    · exact absurd hx hne
    · have := parseDigitsAux_natToCharsAux n n 0 (le_refl n)
      rw [hx] at this
      simpa [parseNatDigits] using this

/-- The head of `natToChars` is a decimal digit (in particular not a sign). -/
theorem natToChars_head_digit (n : Nat) :
    ∃ d rest, d < 10 ∧ natToChars n = digitChar d :: rest := by
  by_cases h : n = 0
  · subst h
    exact ⟨0, [], by omega, rfl⟩
  · unfold natToChars
    rw [if_neg h]
    have hne := natToCharsAux_ne_nil n n (by omega) (le_refl n)
    rcases hx : natToCharsAux n n with _ | ⟨c, rest⟩
    · exact absurd hx hne
    · have hc : c ∈ natToCharsAux n n := by rw [hx]; exact List.mem_cons_self _ _
      obtain ⟨d, hd, hcd⟩ := natToCharsAux_digits n n c hc
      exact ⟨d, rest, hd, by rw [hcd]⟩

/-- Parsing the decimal rendering of an `i32`-ranged integer recovers it. -/
theorem parseI32_intToChars (n : Int) (hlo : -2147483648 ≤ n)
    (hhi : n < 2147483648) : parseI32 (intToChars n) = some n := by
  by_cases hneg : n < 0
  · have habs_le : n.natAbs ≤ 2147483648 := by omega
    rw [intToChars, if_pos hneg]
    simp only [parseI32]
    rw [if_pos trivial, parseNatDigits_natToChars]
    simp only [Option.some_bind, if_pos habs_le, Option.some.injEq]
    omega
  · have htn_lt : n.toNat < 2147483648 := by omega
    obtain ⟨d, rest, hd, hrep⟩ := natToChars_head_digit n.toNat
    rw [intToChars, if_neg hneg, hrep]
    simp only [parseI32]
    rw [if_neg (digitChar_ne_dash hd), if_neg (digitChar_ne_plus hd), ← hrep,
      parseNatDigits_natToChars]
    simp only [Option.some_bind, if_pos htn_lt, Option.some.injEq]
    omega

/-! ## Lemmas: the segment delimiter -/

/-- Splitting a bar-free string on `"||"` yields the string itself. -/
theorem splitDelim_of_hasDelim_false :
    ∀ a : List Char, hasDelim a = false → splitDelim a = [a]
  | [], _ => rfl
  | [_], _ => rfl
  | c1 :: c2 :: rest, h => by
    by_cases hcond : c1 = '|' ∧ c2 = '|'
    · simp [hasDelim, hcond] at h
    · simp only [hasDelim, if_neg hcond] at h
      simp only [splitDelim, if_neg hcond,
        splitDelim_of_hasDelim_false (c2 :: rest) h]

/-- A string without `'|'` characters does not contain the delimiter. -/
theorem hasDelim_eq_false_of_no_bar :
    ∀ a : List Char, (∀ c ∈ a, c ≠ '|') → hasDelim a = false
  | [], _ => rfl
  | [_], _ => rfl
  | c1 :: c2 :: rest, h => by
    have hc1 : c1 ≠ '|' := h c1 (by simp)
    have htail := hasDelim_eq_false_of_no_bar (c2 :: rest)
      (fun c hc => h c (List.mem_cons_of_mem _ hc))
    simp [hasDelim, hc1, htail]

/-- Splitting `a ++ "||" ++ b` where `a` has no `'|'` characters cuts
exactly after `a`. -/
theorem splitDelim_append :
    ∀ (a b : List Char), (∀ c ∈ a, c ≠ '|') →
      splitDelim (a ++ '|' :: '|' :: b) = a :: splitDelim b
  | [], _, _ => by simp [splitDelim]
  | [c], b, h => by
    have hc : c ≠ '|' := h c (by simp)
    simp [splitDelim, hc]
  | c1 :: c2 :: rest, b, h => by
    have hc1 : c1 ≠ '|' := h c1 (by simp)
    have ih := splitDelim_append (c2 :: rest) b
      (fun c hc => h c (List.mem_cons_of_mem _ hc))
    simp only [List.cons_append] at ih ⊢
    simp [splitDelim, hc1, ih]

/-- Every character of `natToChars` is a decimal digit character. -/
theorem natToChars_digits (n : Nat) :
    ∀ c ∈ natToChars n, ∃ d, d < 10 ∧ c = digitChar d := by
  by_cases h : n = 0
  · subst h
    intro c hc
    simp [natToChars] at hc
    exact ⟨0, by omega, by rw [hc]; rfl⟩
  · intro c hc
    rw [natToChars, if_neg h] at hc
    exact natToCharsAux_digits n n c hc

/-- The decimal rendering of an integer contains no `'|'` character. -/
theorem intToChars_no_bar (n : Int) : ∀ c ∈ intToChars n, c ≠ '|' := by
  intro c hc
  rw [intToChars] at hc
  by_cases hneg : n < 0
  · rw [if_pos hneg] at hc
    rcases List.mem_cons.1 hc with hd | ht
    · rw [hd]; decide
    · obtain ⟨d, hd, hcd⟩ := natToChars_digits n.natAbs c ht
      rw [hcd]; exact digitChar_ne_bar hd
  · rw [if_neg hneg] at hc
    obtain ⟨d, hd, hcd⟩ := natToChars_digits n.toNat c hc
    rw [hcd]; exact digitChar_ne_bar hd

/-! ## Lemmas: UTF-8 round trip -/

/-- The codepoint of a `Char` is a unicode scalar value. -/
theorem char_toNat_valid (c : Char) :
    c.toNat < 0xD800 ∨ (0xE000 ≤ c.toNat ∧ c.toNat < 0x110000) := by
  have h := c.valid
  simp [UInt32.isValidChar, Nat.isValidChar, Char.toNat] at h ⊢
  exact h

/-- Every byte of a UTF-8 encoded character fits in an octet. -/
theorem utf8EncodeChar_lt (c : Char) : ∀ b ∈ utf8EncodeChar c, b < 256 := by
  have hv := char_toNat_valid c
  intro b hb
  rw [utf8EncodeChar] at hb
  by_cases h1 : c.toNat < 0x80
  · rw [if_pos h1] at hb
    simp only [List.mem_singleton] at hb
    omega
  · rw [if_neg h1] at hb
    by_cases h2 : c.toNat < 0x800
    · rw [if_pos h2] at hb
      simp only [List.mem_cons, List.not_mem_nil, or_false] at hb
      rcases hb with hb | hb <;> omega
    · rw [if_neg h2] at hb
      by_cases h3 : c.toNat < 0x10000
      · rw [if_pos h3] at hb
        simp only [List.mem_cons, List.not_mem_nil, or_false] at hb
        rcases hb with hb | hb | hb <;> omega
      · rw [if_neg h3] at hb
        simp only [List.mem_cons, List.not_mem_nil, or_false] at hb
        rcases hb with hb | hb | hb | hb <;> omega

/-- Every byte of a UTF-8 encoded string fits in an octet. -/
theorem utf8Encode_lt (s : List Char) : ∀ b ∈ utf8Encode s, b < 256 := by
  intro b hb
  simp only [utf8Encode, List.mem_flatMap] at hb
  obtain ⟨c, _, hbc⟩ := hb
  exact utf8EncodeChar_lt c b hbc

/-- A character encodes to at least one byte. -/
theorem utf8EncodeChar_length_pos (c : Char) : 0 < (utf8EncodeChar c).length := by
  rw [utf8EncodeChar]
  by_cases h1 : c.toNat < 0x80
  · simp [h1]
  · by_cases h2 : c.toNat < 0x800
    · simp [h1, h2]
    · by_cases h3 : c.toNat < 0x10000
      · simp [h1, h2, h3]
      · simp [h1, h2, h3]

/-- Decoding one step of an encoded character at the head of a byte stream
produces that character and the rest of the stream. -/
theorem utf8Step_encodeChar (c : Char) (t : List Nat) :
    utf8Step (utf8EncodeChar c ++ t) = some (c, t) := by
  have hv := char_toNat_valid c
  rw [utf8EncodeChar]
  by_cases h1 : c.toNat < 0x80
  · rw [if_pos h1, List.cons_append, List.nil_append, utf8Step.eq_def]
    simp only []
    rw [if_pos h1, Char.ofNat_toNat]
  · rw [if_neg h1]
    by_cases h2 : c.toNat < 0x800
    · rw [if_pos h2, List.cons_append, List.cons_append, List.nil_append,
        utf8Step.eq_def]
      simp only []
      rw [if_neg (by omega), if_neg (by omega), if_pos (by omega),
        if_pos ⟨by omega, by omega⟩]
      have hx : (0xC0 + c.toNat / 0x40 - 0xC0) * 0x40 +
          (0x80 + c.toNat % 0x40 - 0x80) = c.toNat := by omega
      rw [hx, Char.ofNat_toNat]
    · rw [if_neg h2]
      by_cases h3 : c.toNat < 0x10000
      · rw [if_pos h3, List.cons_append, List.cons_append, List.cons_append,
          List.nil_append, utf8Step.eq_def]
        simp only []
        rw [if_neg (by omega), if_neg (by omega), if_neg (by omega),
          if_pos (by omega)]
        rw [if_pos ⟨⟨by omega, by omega⟩, by omega, by omega⟩,
          if_pos ⟨by omega, by omega⟩]
        have hx : (0xE0 + c.toNat / 0x1000 - 0xE0) * 0x1000 +
            (0x80 + c.toNat / 0x40 % 0x40 - 0x80) * 0x40 +
            (0x80 + c.toNat % 0x40 - 0x80) = c.toNat := by omega
        rw [hx, Char.ofNat_toNat]
      · rw [if_neg h3, List.cons_append, List.cons_append, List.cons_append,
          List.cons_append, List.nil_append, utf8Step.eq_def]
        simp only []
        rw [if_neg (by omega), if_neg (by omega), if_neg (by omega),
          if_neg (by omega), if_pos (by omega)]
        rw [if_pos ⟨⟨by omega, by omega⟩, ⟨by omega, by omega⟩, by omega, by omega⟩,
          if_pos ⟨by omega, by omega⟩]
        have hx : (0xF0 + c.toNat / 0x40000 - 0xF0) * 0x40000 +
            (0x80 + c.toNat / 0x1000 % 0x40 - 0x80) * 0x1000 +
            (0x80 + c.toNat / 0x40 % 0x40 - 0x80) * 0x40 +
            (0x80 + c.toNat % 0x40 - 0x80) = c.toNat := by omega
        rw [hx, Char.ofNat_toNat]

/-- With enough fuel, decoding the encoding of a string succeeds. -/
theorem utf8DecodeAux_encode (s : List Char) :
    ∀ fuel : Nat, (utf8Encode s).length ≤ fuel →
      utf8DecodeAux fuel (utf8Encode s) = some s := by
  induction s with
  | nil =>
    intro fuel _
    cases fuel <;> rfl
  | cons c rest ih =>
    intro fuel hfuel
    have hsplit : utf8Encode (c :: rest) = utf8EncodeChar c ++ utf8Encode rest := by
      simp [utf8Encode]
    have hclen := utf8EncodeChar_length_pos c
    rw [hsplit] at hfuel ⊢
    rw [List.length_append] at hfuel
    cases fuel with
    | zero => omega
    | succ f =>
      obtain ⟨e0, erest, he⟩ : ∃ e0 erest, utf8EncodeChar c = e0 :: erest := by
        rcases hx : utf8EncodeChar c with _ | ⟨a, b⟩
        · rw [hx] at hclen
          simp at hclen
        · exact ⟨a, b, rfl⟩
      rw [he, List.cons_append, utf8DecodeAux, ← List.cons_append, ← he,
        utf8Step_encodeChar]
      simp only []
      rw [ih f (by rw [he] at hfuel; simp at hfuel; omega)]
      rfl

/-- UTF-8 decoding inverts UTF-8 encoding. -/
theorem utf8Decode_utf8Encode (s : List Char) :
    utf8Decode (utf8Encode s) = some s :=
  utf8DecodeAux_encode s (utf8Encode s).length (Nat.le_refl _)

/-! ## Lemmas: base64 round trip -/

/-- `charSextet` inverts `sextetChar` on 6-bit values. -/
theorem charSextet_sextetChar : ∀ n : Nat, n < 64 → charSextet (sextetChar n) = some n := by
  decide

/-- The alphabet never produces the padding character. -/
theorem sextetChar_ne_pad : ∀ n : Nat, n < 64 → sextetChar n ≠ '=' := by
  decide

/-- Base64 decoding inverts base64 encoding on octet lists. -/
theorem base64Decode_base64Encode :
    ∀ l : List Nat, (∀ b ∈ l, b < 256) → base64Decode (base64Encode l) = some l
  | [], _ => rfl
  | [b0], h => by
    have hb0 : b0 < 256 := h b0 (by simp)
    rw [base64Encode, base64Decode.eq_def]
    simp only []
    rw [charSextet_sextetChar _ (by omega), charSextet_sextetChar _ (by omega)]
    simp only []
    rw [if_pos trivial, if_pos ⟨trivial, trivial, by omega⟩]
    have hx : b0 / 4 * 4 + b0 % 4 * 16 / 16 = b0 := by omega
    rw [hx]
  | [b0, b1], h => by
    have hb0 : b0 < 256 := h b0 (by simp)
    have hb1 : b1 < 256 := h b1 (by simp)
    rw [base64Encode, base64Decode.eq_def]
    simp only []
    rw [charSextet_sextetChar _ (by omega), charSextet_sextetChar _ (by omega)]
    simp only []
    rw [if_neg (sextetChar_ne_pad _ (by omega)),
      charSextet_sextetChar _ (by omega)]
    simp only []
    rw [if_pos trivial, if_pos ⟨trivial, by omega⟩]
    have hx1 : b0 / 4 * 4 + (b0 % 4 * 16 + b1 / 16) / 16 = b0 := by omega
    have hx2 : (b0 % 4 * 16 + b1 / 16) % 16 * 16 + b1 % 16 * 4 / 4 = b1 := by omega
    rw [hx1, hx2]
  | b0 :: b1 :: b2 :: b3rest, h => by
    have hb0 : b0 < 256 := h b0 (by simp)
    have hb1 : b1 < 256 := h b1 (by simp)
    have hb2 : b2 < 256 := h b2 (by simp)
    have ih := base64Decode_base64Encode b3rest
      (fun b hb => h b (by simp [hb]))
    rw [base64Encode, base64Decode.eq_def]
    simp only []
    rw [charSextet_sextetChar _ (by omega), charSextet_sextetChar _ (by omega)]
    simp only []
    rw [if_neg (sextetChar_ne_pad _ (by omega)),
      charSextet_sextetChar _ (by omega)]
    simp only []
    rw [if_neg (sextetChar_ne_pad _ (by omega)),
      charSextet_sextetChar _ (by omega)]
    simp only []
    rw [ih]
    have hx1 : b0 / 4 * 4 + (b0 % 4 * 16 + b1 / 16) / 16 = b0 := by omega
    have hx2 : (b0 % 4 * 16 + b1 / 16) % 16 * 16 + (b1 % 16 * 4 + b2 / 64) / 4 = b1 := by
      omega
    have hx3 : (b1 % 16 * 4 + b2 / 64) % 4 * 64 + b2 % 64 = b2 := by omega
    rw [hx1, hx2, hx3]
    rfl

/-- The full cursor codec pipeline: base64-decoding an encoded raw string
recovers its UTF-8 bytes. -/
theorem base64Decode_toEncodedStr (raw : List Char) :
    base64Decode (toEncodedStr raw) = some (utf8Encode raw) :=
  base64Decode_base64Encode (utf8Encode raw) (utf8Encode_lt raw)

/-! ## Lemmas: cursor decode pipeline -/

/-- Decoding an encoded raw string hands `OffsetCursor::new` exactly that
raw string and its delimiter split. -/
theorem offset_decode_toEncodedStr (raw : List Char) :
    OffsetCursor.from_encoded_string (toEncodedStr raw) =
      OffsetCursor.new raw (splitDelim raw) := by
  unfold OffsetCursor.from_encoded_string
  rw [base64Decode_toEncodedStr]
  simp only []
  rw [utf8Decode_utf8Encode]

/-- Decoding an encoded raw string hands `StringCursor::new` exactly that
raw string and its delimiter split. -/
theorem string_decode_toEncodedStr (raw : List Char) :
    StringCursor.from_encoded_string (toEncodedStr raw) =
      StringCursor.new raw (splitDelim raw) := by
  unfold StringCursor.from_encoded_string
  rw [base64Decode_toEncodedStr]
  simp only []
  rw [utf8Decode_utf8Encode]

/-- The raw form of an offset cursor without `first` splits into its two
segments. -/
theorem splitDelim_offset_raw_none (o : Int) :
    splitDelim (OffsetCursor.to_raw_string ⟨o, none⟩) =
      ["offset".toList, intToChars o] := by
  show splitDelim ("offset".toList ++ '|' :: '|' :: intToChars o) = _
  rw [splitDelim_append _ _ (by decide),
    splitDelim_of_hasDelim_false _
      (hasDelim_eq_false_of_no_bar _ (intToChars_no_bar o))]

/-- The raw form of an offset cursor with `first` splits into its three
segments. -/
theorem splitDelim_offset_raw_some (o f : Int) :
    splitDelim (OffsetCursor.to_raw_string ⟨o, some f⟩) =
      ["offset".toList, intToChars o, intToChars f] := by
  show splitDelim
    ("offset".toList ++ '|' :: '|' :: (intToChars o ++ '|' :: '|' :: intToChars f)) = _
  rw [splitDelim_append _ _ (by decide),
    splitDelim_append _ _ (intToChars_no_bar o),
    splitDelim_of_hasDelim_false _
      (hasDelim_eq_false_of_no_bar _ (intToChars_no_bar f))]

/-- The raw form of a string cursor splits into the kind tag followed by
the delimiter split of its value. -/
theorem splitDelim_string_raw (v : List Char) :
    splitDelim (StringCursor.to_raw_string ⟨v⟩) =
      "string".toList :: splitDelim v := by
  show splitDelim ("string".toList ++ '|' :: '|' :: v) = _
  rw [splitDelim_append _ _ (by decide)]

/-! ## Claim-side definitions

These two definitions follow the wording of the specification (claims C3
and C4), to be compared with the source-translated provider functions. -/

/-- The "current cursor" in the spec's words: decode
`metadata.pageRequest.after` into an `OffsetCursor`, defaulting to
`{offset: 0, first: None}` when the request or the `after` value is absent
or undecodable. -/
def current_cursor_spec (md : PaginationMetadata) : OffsetCursor :=
  match md.page_request with
  | none => ⟨0, none⟩
  | some pr =>
    match pr.after with
    | none => ⟨0, none⟩
    | some s =>
      match OffsetCursor.from_encoded_string s with
      | .ok c => c
      | .error _ => ⟨0, none⟩

/-- The spec's `offsetAdjust`: 1 exactly when an `after` cursor was present
and successfully decoded, 0 otherwise. -/
def offset_adjust_spec (md : PaginationMetadata) : Int :=
  match md.page_request with
  | none => 0
  | some pr =>
    match pr.after with
    | none => 0
    | some s =>
      match OffsetCursor.from_encoded_string s with
      | .ok _ => 1
      | .error _ => 0

/-- The model's inlined current cursor (shared by `get_cursor_for_item` and
`get_page_info`) agrees with the spec-side `current_cursor_spec`. -/
theorem parsed_cursor_cases (md : PaginationMetadata) :
    (match md.page_request with
      | some pr =>
        match pr.parsed_cursor with
        | .ok c => c.getD OffsetCursor.defaultC
        | .error _ => OffsetCursor.defaultC
      | none => OffsetCursor.defaultC) = current_cursor_spec md := by
  obtain ⟨tc, preq⟩ := md
  cases preq with
  | none => rfl
  | some pr =>
    obtain ⟨f, aft⟩ := pr
    cases aft with
    | none => rfl
    | some str =>
      simp only [current_cursor_spec, PageRequest.parsed_cursor]
      cases OffsetCursor.from_encoded_string str with
      | ok c => rfl
      | error e => rfl

/-- A successful checked `i32` addition returns the in-range mathematical
sum. -/
theorem checkedAddI32_some {a b sum : Int} (h : checkedAddI32 a b = some sum) :
    sum = a + b ∧ -2147483648 ≤ a + b ∧ a + b < 2147483648 := by
  unfold checkedAddI32 at h
  by_cases hr : -2147483648 ≤ a + b ∧ a + b < 2147483648
  · rw [if_pos hr] at h
    cases h
    exact ⟨rfl, hr⟩
  · rw [if_neg hr] at h
    cases h

/-- `get_cursor_for_item` characterised through the spec-side current
cursor and adjust: the checked left-to-right sum
`(currentCursor.offset + offsetAdjust) + itemIndex`, panicking exactly
when an intermediate or final sum leaves the `i32` range. -/
theorem offset_get_cursor_for_item_eq (α : Type) (md : PaginationMetadata)
    (i : Int) (item : α) :
    offset_get_cursor_for_item md i item =
      match checkedAddI32 (current_cursor_spec md).offset (offset_adjust_spec md) with
      | none => .panicked
      | some s1 =>
        match checkedAddI32 s1 i with
        | none => .panicked
        | some s2 => .ok ⟨s2, (current_cursor_spec md).first⟩ := by
  obtain ⟨tc, preq⟩ := md
  cases preq with
  | none => rfl
  | some pr =>
    obtain ⟨f, aft⟩ := pr
    cases aft with
    | none => rfl
    | some str =>
      simp only [offset_get_cursor_for_item, current_cursor_spec,
        offset_adjust_spec, PageRequest.parsed_cursor]
      cases OffsetCursor.from_encoded_string str with
      | ok c => rfl
      | error e => rfl

/-! ## Claims -/

/-- C1: the claim says that for an empty `items` slice
`OffsetCursorProvider::get_page_info` returns `startCursor = endCursor =
None` and that the last-index computation short-circuits on emptiness
before the subtraction `len() - 1`.  The code computes
`let last_index = items.len() - 1;` before the `is_empty` checks, so the
call underflows and panics on the empty page instead of returning: the
claim describes the intended (spec) behaviour and the code is a slip.
This theorem evaluates the model at the failing input. -/
theorem C1_offset_page_info_empty_underflows :
    offset_get_page_info ⟨0, none⟩ ([] : List Unit) = .panicked := rfl

/-- C2: the claim says decoding never panics for every built-in cursor
kind, in particular for `StringCursor` on inputs whose decoded form has no
`"||"` delimiter.  Exactly there the code panics: `StringCursor::new`
indexes `parts[1]` without a length check, and the split of a
delimiter-free payload has exactly one segment.  This theorem evaluates
the code on every such failing input. -/
theorem C2_string_decode_panics_without_delimiter (input : List Char)
    (bytes : List Nat) (raw : List Char) (hb : base64Decode input = some bytes)
    (hu : utf8Decode bytes = some raw) (hd : hasDelim raw = false) :
    StringCursor.from_encoded_string input = .panicked := by
  unfold StringCursor.from_encoded_string
  rw [hb]
  simp only []
  rw [hu]
  simp only []
  rw [splitDelim_of_hasDelim_false raw hd]
  rfl

/-- Witness for C2: the concrete input `"aGVsbG8="` (base64 of `"hello"`)
satisfies the hypotheses and makes `StringCursor::from_encoded_string`
panic. -/
theorem C2_string_decode_panics_witness :
    base64Decode "aGVsbG8=".toList = some [104, 101, 108, 108, 111] ∧
    utf8Decode [104, 101, 108, 108, 111] = some "hello".toList ∧
    hasDelim "hello".toList = false ∧
    StringCursor.from_encoded_string "aGVsbG8=".toList = .panicked :=
  ⟨by decide, by decide, by decide,
    C2_string_decode_panics_without_delimiter "aGVsbG8=".toList
      [104, 101, 108, 108, 111] "hello".toList (by decide) (by decide) (by decide)⟩

/-- C3 (amended): `OffsetCursorProvider::get_cursor_for_item` returns
`OffsetCursor{offset: currentCursor.offset + offsetAdjust + i,
first: currentCursor.first}` — current cursor the decoded `after` cursor
or the default, `offsetAdjust` 1 exactly when an `after` cursor was present
and successfully decoded — whenever both left-to-right `i32` additions stay
in range.  (The claim as stated quantifies over every metadata and index;
when `currentCursor.offset + offsetAdjust` or the full sum leaves the
`i32` range, the Rust addition overflows — a debug/test panic, a wrap in
release — and no cursor with the mathematical sum is returned: see the
counterexample.) -/
theorem C3_offset_cursor_for_item_formula (α : Type) (md : PaginationMetadata)
    (i : Int) (item : α)
    (h1 : -2147483648 ≤ (current_cursor_spec md).offset + offset_adjust_spec md)
    (h2 : (current_cursor_spec md).offset + offset_adjust_spec md < 2147483648)
    (h3 : -2147483648 ≤ (current_cursor_spec md).offset + offset_adjust_spec md + i)
    (h4 : (current_cursor_spec md).offset + offset_adjust_spec md + i < 2147483648) :
    offset_get_cursor_for_item md i item =
      .ok ⟨(current_cursor_spec md).offset + offset_adjust_spec md + i,
        (current_cursor_spec md).first⟩ := by
  rw [offset_get_cursor_for_item_eq, checkedAddI32, if_pos ⟨h1, h2⟩]
  simp only []
  rw [checkedAddI32, if_pos ⟨h3, h4⟩]

/-- C3 counterexample: the client-suppliable cursor
`base64("offset||2147483647")` decodes to offset `i32::MAX`; with
`offsetAdjust = 1` and item index 0 the addition leaves the `i32` range,
so the call panics instead of returning the mathematical sum the original
claim asserts for every metadata and index. -/
theorem C3_overflow_counterexample :
    OffsetCursor.from_encoded_string (toEncodedStr "offset||2147483647".toList) =
      .ok ⟨2147483647, none⟩ ∧
    offset_get_cursor_for_item
      ⟨0, some ⟨none, some (toEncodedStr "offset||2147483647".toList)⟩⟩ 0 () =
      .panicked := by
  constructor
  · decide
  · decide

/-- Witness for C3 at a concrete in-range input. -/
theorem C3_offset_cursor_for_item_formula_witness :
    offset_get_cursor_for_item ⟨0, none⟩ 3 () =
      .ok ⟨(current_cursor_spec ⟨0, none⟩).offset + offset_adjust_spec ⟨0, none⟩ + 3,
        (current_cursor_spec ⟨0, none⟩).first⟩ :=
  C3_offset_cursor_for_item_formula Unit ⟨0, none⟩ 3 ()
    (by decide) (by decide) (by decide) (by decide)

/-- C10: `OffsetCursorProvider::get_cursor_for_item` does not depend on the
item argument: for any two items of any two item types, the produced cursor
is the same function of the metadata and the index alone. -/
theorem C10_offset_cursor_item_independent (α β : Type) (md : PaginationMetadata)
    (i : Int) (a : α) (b : β) :
    offset_get_cursor_for_item md i a = offset_get_cursor_for_item md i b := rfl

/-- C4 (amended): whenever `OffsetCursorProvider::get_page_info` returns a
`PageInfo` — it panics on an empty items slice (the `len() - 1` underflow
of C1) and on `i32` overflow in `currentCursor.offset + first` or in the
boundary-cursor offset arithmetic — the returned flags satisfy
`hasPrevPage` true iff the decoded-or-default current cursor has positive
offset, and `hasNextPage` true iff a page request with a `first` was
supplied and `currentCursor.offset + first < totalCount`.  (The claim as
stated asserts the flags are returned for every metadata and items slice;
the panics refute that — see the counterexample.) -/
theorem C4_offset_page_info_flags (α : Type) (md : PaginationMetadata)
    (items : List α) (pi : PageInfo)
    (h : offset_get_page_info md items = .ok pi) :
    (pi.has_prev_page = true ↔ 0 < (current_cursor_spec md).offset) ∧
    (pi.has_next_page = true ↔
      ∃ pr f, md.page_request = some pr ∧ pr.first = some f ∧
        (current_cursor_spec md).offset + f < md.total_count) := by
  unfold offset_get_page_info at h
  simp only [] at h
  rw [parsed_cursor_cases] at h
  split at h
  · exact absurd h (by simp)
  · rename_i hn heq
    split at h
    · exact absurd h (by simp)
    · rename_i i0 restItems
      split at h
      · exact absurd h (by simp)
      · rename_i start_c hsc
        split at h
        · exact absurd h (by simp)
        · rename_i end_c hec
          rw [RustValue.ok.injEq] at h
          subst h
          refine ⟨by simp, ?_⟩
          split at heq
          · rename_i pr hpr
            split at heq
            · rename_i f hf
              rcases hadd : checkedAddI32 (current_cursor_spec md).offset f with _ | sum
              · rw [hadd] at heq
                simp at heq
              · rw [hadd] at heq
                obtain ⟨hsum, _, _⟩ := checkedAddI32_some hadd
                have heq2 : some (decide (sum < md.total_count)) = some hn := heq
                rw [Option.some.injEq] at heq2
                subst heq2
                subst hsum
                simp only [hpr, decide_eq_true_eq, Option.some.injEq]
                constructor
                · intro hlt
                  exact ⟨pr, f, rfl, hf, hlt⟩
                · rintro ⟨pr', f', hpr', hf', hlt⟩
                  cases hpr'
                  rw [hf] at hf'
                  cases hf'
                  exact hlt
            · rename_i hf
              rw [Option.some.injEq] at heq
              subst heq
              simp only [hpr, hf, Option.some.injEq]
              constructor
              · intro hfalse
                cases hfalse
              · rintro ⟨pr', f', hpr', hf', _⟩
                cases hpr'
                rw [hf] at hf'
                cases hf'
          · rename_i hpr
            rw [Option.some.injEq] at heq
            subst heq
            simp [hpr]

/-- C4 counterexample: with the decoded cursor offset `i32::MAX` and
`first = 1` on a non-empty page, the `i32` addition in the `hasNextPage`
computation leaves the `i32` range, so the call panics instead of
returning the flags the original claim asserts for every metadata and
items slice. -/
theorem C4_overflow_counterexample :
    offset_get_page_info
      ⟨0, some ⟨some 1, some (toEncodedStr "offset||2147483647".toList)⟩⟩
      [()] = .panicked := by
  decide

/-- Witness for C4 at a concrete returning input. -/
theorem C4_offset_page_info_flags_witness :
    ∃ pi, offset_get_page_info ⟨7, some ⟨some 2, none⟩⟩ [()] = .ok pi ∧
      ((pi.has_prev_page = true ↔
        0 < (current_cursor_spec ⟨7, some ⟨some 2, none⟩⟩).offset) ∧
       (pi.has_next_page = true ↔
        ∃ pr f, (some ⟨some 2, none⟩ : Option PageRequest) = some pr ∧
          pr.first = some f ∧
          (current_cursor_spec ⟨7, some ⟨some 2, none⟩⟩).offset + f < 7)) :=
  ⟨_, rfl, C4_offset_page_info_flags Unit ⟨7, some ⟨some 2, none⟩⟩ [()] _ rfl⟩

/-- C5 (amended): the encode/decode round trip holds for every
`OffsetCursor` in the `i32` range with `offset ≥ 0`, and for every
`StringCursor` whose value does not contain the `"||"` segment delimiter.
(The claim as stated says *any* byte-safe string value survives; a value
containing the delimiter is re-split on decode and does not — see the
counterexample.) -/
theorem C5_cursor_roundtrip :
    (∀ (o : Int) (f : Option Int), 0 ≤ o → o < 2147483648 →
      (∀ x, f = some x → -2147483648 ≤ x ∧ x < 2147483648) →
      OffsetCursor.from_encoded_string (OffsetCursor.to_encoded_string ⟨o, f⟩) =
        .ok ⟨o, f⟩) ∧
    (∀ v : List Char, hasDelim v = false →
      StringCursor.from_encoded_string (StringCursor.to_encoded_string ⟨v⟩) =
        .ok ⟨v⟩) := by
  constructor
  · intro o f h0 hlt hf
    rw [OffsetCursor.to_encoded_string, offset_decode_toEncodedStr]
    cases f with
    | none =>
      rw [splitDelim_offset_raw_none]
      simp only [OffsetCursor.new]
      rw [parseI32_intToChars o (by omega) hlt]
      rfl
    | some fv =>
      obtain ⟨hf1, hf2⟩ := hf fv rfl
      rw [splitDelim_offset_raw_some]
      simp only [OffsetCursor.new]
      rw [parseI32_intToChars o (by omega) hlt, parseI32_intToChars fv hf1 hf2]
      rfl
  · intro v hv
    rw [StringCursor.to_encoded_string, string_decode_toEncodedStr,
      splitDelim_string_raw, splitDelim_of_hasDelim_false v hv]
    rfl

/-- C5 counterexample: the `StringCursor` value `"a||b"` does not survive
the round trip — it decodes back to `"a"`. -/
theorem C5_roundtrip_counterexample :
    StringCursor.from_encoded_string
        (StringCursor.to_encoded_string ⟨['a', '|', '|', 'b']⟩) =
      .ok ⟨['a']⟩ ∧
    StringCursor.from_encoded_string
        (StringCursor.to_encoded_string ⟨['a', '|', '|', 'b']⟩) ≠
      .ok ⟨['a', '|', '|', 'b']⟩ := by
  constructor
  · decide
  · decide

/-- Witness for C5 at concrete cursors. -/
theorem C5_cursor_roundtrip_witness :
    OffsetCursor.from_encoded_string (OffsetCursor.to_encoded_string ⟨1, some 10⟩) =
      .ok ⟨1, some 10⟩ ∧
    StringCursor.from_encoded_string
        (StringCursor.to_encoded_string ⟨"some-cursor".toList⟩) =
      .ok ⟨"some-cursor".toList⟩ :=
  ⟨C5_cursor_roundtrip.1 1 (some 10) (by decide) (by decide)
      (fun x hx => by cases hx; exact ⟨by decide, by decide⟩),
    C5_cursor_roundtrip.2 "some-cursor".toList (by decide)⟩

/-- C6 (amended): `OffsetCursor::new` fails with `InvalidCursor` exactly
when the split does not have 2 or 3 segments; otherwise it succeeds with
`offset = parts[1].parse::<i32>().unwrap_or(0)` — a *signed* parse, so a
negative numeral produces a negative offset rather than a non-negative one
(see the counterexample) — and `first` absent for 2 segments, or
`parts[2].parse::<i32>().ok()` for 3 segments; numeric sub-field failures
are never propagated as errors. -/
theorem C6_offset_new_characterization (raw : List Char)
    (parts : List (List Char)) :
    (OffsetCursor.new raw parts = .error .invalidCursor ↔
      ¬(parts.length = 2 ∨ parts.length = 3)) ∧
    (∀ p0 a, parts = [p0, a] →
      OffsetCursor.new raw parts = .ok ⟨(parseI32 a).getD 0, none⟩) ∧
    (∀ p0 a b, parts = [p0, a, b] →
      OffsetCursor.new raw parts = .ok ⟨(parseI32 a).getD 0, parseI32 b⟩) := by
  refine ⟨?_, ?_, ?_⟩
  · match parts with
    | [] => simp [OffsetCursor.new]
    | [a] => simp [OffsetCursor.new]
    | [a, b] => simp [OffsetCursor.new]
    | [a, b, c] => simp [OffsetCursor.new]
    | a :: b :: c :: d :: r => simp [OffsetCursor.new]
  · intro p0 a h
    subst h
    rfl
  · intro p0 a b h
    subst h
    rfl

/-- C6 counterexample: the offset segment is parsed as a signed `i32`:
the payload `"offset||-5"` decodes to `offset = -5`, a negative value, so
the segment neither parses as a non-negative integer nor falls back to the
default 0. -/
theorem C6_negative_offset_counterexample :
    OffsetCursor.from_encoded_string (toEncodedStr "offset||-5".toList) =
      .ok ⟨-5, none⟩ ∧ ¬(0 : Int) ≤ -5 := by
  constructor
  · decide
  · decide

/-- Witness for C6 on concrete 2- and 3-segment splits. -/
theorem C6_offset_new_characterization_witness :
    OffsetCursor.new [] [['t'], ['4']] = .ok ⟨(parseI32 ['4']).getD 0, none⟩ ∧
    OffsetCursor.new [] [['t'], ['4'], ['9']] =
      .ok ⟨(parseI32 ['4']).getD 0, parseI32 ['9']⟩ :=
  ⟨(C6_offset_new_characterization [] [['t'], ['4']]).2.1 ['t'] ['4'] rfl,
    (C6_offset_new_characterization [] [['t'], ['4'], ['9']]).2.2
      ['t'] ['4'] ['9'] rfl⟩

/-- C7 (amended): neither `OffsetCursor::new` nor `StringCursor::new`
inspects the kind tag: the decode result is invariant under replacing the
first segment, so an otherwise well-formed payload with a mismatched kind
tag decodes successfully instead of returning `InvalidCursor`. -/
theorem C7_kind_tag_ignored (raw : List Char) (p0 q0 : List Char)
    (rest : List (List Char)) :
    OffsetCursor.new raw (p0 :: rest) = OffsetCursor.new raw (q0 :: rest) ∧
    StringCursor.new raw (p0 :: rest) = StringCursor.new raw (q0 :: rest) := by
  constructor
  · match rest with
    | [] => rfl
    | [a] => rfl
    | [a, b] => rfl
    | a :: b :: c :: r => rfl
  · match rest with
    | [] => rfl
    | a :: r => rfl

/-- C7 counterexample: a `"string"`-tagged payload decodes as an
`OffsetCursor` successfully, and an `"offset"`-tagged payload decodes as a
`StringCursor` successfully — neither yields `InvalidCursor`. -/
theorem C7_tag_mismatch_counterexample :
    OffsetCursor.from_encoded_string (StringCursor.to_encoded_string ⟨['7']⟩) =
      .ok ⟨7, none⟩ ∧
    StringCursor.from_encoded_string (OffsetCursor.to_encoded_string ⟨3, none⟩) =
      .ok ⟨['3']⟩ := by
  constructor
  · decide
  · decide

/-- C8: `KeyedCursorProvider::get_page_info` reports `hasPrevPage` exactly
when the page request is present with a non-absent `after`, `hasNextPage`
exactly when the page is non-empty, and the boundary cursors are the
encoded key-derived cursors of the first and last item (`None` on an empty
page); in particular a request with `after` present and an empty result
page yields `hasPrevPage = true`, `hasNextPage = false` and `None`
boundary cursors. -/
theorem C8_keyed_page_info_characterization (α : Type) (key : α → List Char)
    (md : PaginationMetadata) (items : List α) :
    ((keyed_get_page_info key md items).has_prev_page = true ↔
      ∃ pr a, md.page_request = some pr ∧ pr.after = some a) ∧
    ((keyed_get_page_info key md items).has_next_page = true ↔ items ≠ []) ∧
    (keyed_get_page_info key md items).start_cursor =
      items.head?.map (fun it => (StringCursor.mk (key it)).to_encoded_string) ∧
    (keyed_get_page_info key md items).end_cursor =
      items.getLast?.map (fun it => (StringCursor.mk (key it)).to_encoded_string) := by
  refine ⟨?_, ?_, ?_, ?_⟩
  · obtain ⟨tc, preq⟩ := md
    cases preq with
    | none => simp [keyed_get_page_info]
    | some pr =>
      obtain ⟨f, aft⟩ := pr
      cases aft with
      | none => simp [keyed_get_page_info]
      | some a => simp [keyed_get_page_info]
  · cases items with
    | nil => simp [keyed_get_page_info]
    | cons a l => simp [keyed_get_page_info]
  · cases items with
    | nil => rfl
    | cons a l => rfl
  · cases hl : items.getLast? with
    | none => simp [keyed_get_page_info, hl]
    | some a => simp [keyed_get_page_info, hl, keyed_get_cursor_for_item]

/-- One edge per node, in input order: projecting the node out of the
enumerated list recovers the input list. -/
theorem enumerateFrom_map_snd {α : Type} :
    ∀ (i : Nat) (l : List α), (enumerateFrom i l).map Prod.snd = l
  | _, [] => rfl
  | i, a :: l => by
    simp only [enumerateFrom, List.map_cons, enumerateFrom_map_snd (i + 1) l]

/-- C9: the generated `RelayConnection::new` returns a connection whose
`count` is the supplied total (not the edge count), whose edges are one per
input node in input order with the provider's cursor for that
`(index, node)` base64-encoded, and whose `pageInfo` is the provider's
`get_page_info` over the same metadata and nodes. -/
theorem C9_connection_assembly (α κ : Type) (p : CursorProviderM α κ)
    (nodes : List α) (total : Int) (preq : Option PageRequest) (pi : PageInfo)
    (h : p.get_page_info ⟨total, preq⟩ nodes = .ok pi) :
    ∃ c, RelayConnection.newC p nodes total preq = .ok c ∧
      c.count = total ∧
      c.page_info = pi ∧
      c.edges.map RelayEdge.node = nodes ∧
      c.edges = (enumerateFrom 0 nodes).map (fun x =>
        ⟨x.2, some (toEncodedStr (p.to_raw_string
          (p.get_cursor_for_item ⟨total, preq⟩ (x.1 : Int) x.2)))⟩) := by
  refine ⟨⟨total,
    (enumerateFrom 0 nodes).map (fun x =>
      ⟨x.2, some (toEncodedStr (p.to_raw_string
        (p.get_cursor_for_item ⟨total, preq⟩ (x.1 : Int) x.2)))⟩), pi⟩,
    ?_, rfl, rfl, ?_, rfl⟩
  · unfold RelayConnection.newC
    simp only []
    rw [h]
    rfl
  · simp only [List.map_map]
    have : (RelayEdge.node ∘ fun x : Nat × α =>
        (⟨x.2, some (toEncodedStr (p.to_raw_string
          (p.get_cursor_for_item ⟨total, preq⟩ (x.1 : Int) x.2)))⟩ : RelayEdge α)) =
        Prod.snd := rfl
    rw [this, enumerateFrom_map_snd]

/-- The identity key function, used to exercise the keyed provider on
string-valued items. -/
def idKey (v : List Char) : List Char := v

/-- Witness for C9: the keyed provider over a one-item page. -/
theorem C9_connection_assembly_witness :
    ∃ c, RelayConnection.newC (keyedProvider idKey) [['x']] 5 none = .ok c ∧
      c.count = 5 ∧
      c.page_info = keyed_get_page_info idKey ⟨5, none⟩ [['x']] ∧
      c.edges.map RelayEdge.node = [['x']] ∧
      c.edges = (enumerateFrom 0 [['x']]).map (fun x =>
        ⟨x.2, some (toEncodedStr ((keyedProvider idKey).to_raw_string
          ((keyedProvider idKey).get_cursor_for_item ⟨5, none⟩ (x.1 : Int) x.2)))⟩) :=
  C9_connection_assembly (List Char) StringCursor (keyedProvider idKey)
    [['x']] 5 none (keyed_get_page_info idKey ⟨5, none⟩ [['x']]) rfl

end Relay

